import Mathlib

/-!
Shallow embedding of the saga-pattern workflow orchestrator
(`src/saga_orchestrator.py`) and its state store (`src/firestore_repo.py`).

The persisted Firestore document is modelled as a structure whose fields are
`Option`-valued: `none` means the key is absent from the document; for keys
whose value may itself be JSON `null`, the value type is again an `Option`.
Timestamps (ISO strings / SERVER_TIMESTAMP in the source) are abstracted to a
`Nat` clock value supplied per run.  A `Step`'s `run()` is modelled as a
function from the 1-based attempt number to either an error message or a
result payload; `compensate()` as a single outcome.  Every externally visible
action of a run (state writes, `run()` calls, `compensate()` calls, history
appends) is recorded in an event trace.
-/

set_option maxRecDepth 4000

/-- The persisted workflow document (`workflow_runs/<workflow_name>`).
A field is `none` when the corresponding key is absent. -/
structure Doc where
  status : Option String := none
  last_success_step : Option Int := none
  current_step : Option (Option String) := none
  current_step_index : Option Int := none
  current_step_attempt : Option Nat := none
  error : Option (Option String) := none
  started_at : Option (Option Nat) := none
  completed_at : Option (Option Nat) := none
  retry_count : Option Nat := none
  failed_step : Option String := none
  updated_at : Option Nat := none
  deriving DecidableEq

/-- `FirestoreRepo._get_default_state` (firestore_repo.py lines 176-192). -/
def FirestoreRepo.get_default_state : Doc :=
  { status := some "NOT_STARTED"
    last_success_step := some (-1)
    current_step := some none
    error := some none
    started_at := some none
    completed_at := some none
    retry_count := some 0 }

/-- Merge-write semantics of `doc_ref.set(data, merge=True)`: keys present in
`data` overwrite, keys absent in `data` are kept; a missing document is
created holding exactly `data`. -/
def mergeDoc (doc : Option Doc) (data : Doc) : Doc :=
  match doc with
  | some d =>
      { status := data.status.orElse fun _ => d.status
        last_success_step := data.last_success_step.orElse fun _ => d.last_success_step
        current_step := data.current_step.orElse fun _ => d.current_step
        current_step_index := data.current_step_index.orElse fun _ => d.current_step_index
        current_step_attempt := data.current_step_attempt.orElse fun _ => d.current_step_attempt
        error := data.error.orElse fun _ => d.error
        started_at := data.started_at.orElse fun _ => d.started_at
        completed_at := data.completed_at.orElse fun _ => d.completed_at
        retry_count := data.retry_count.orElse fun _ => d.retry_count
        failed_step := data.failed_step.orElse fun _ => d.failed_step
        updated_at := data.updated_at.orElse fun _ => d.updated_at }
  | none => data

/-- `doc_ref.set(data, merge=True)` applied to the stored document. -/
def setMerge (doc : Option Doc) (data : Doc) : Option Doc :=
  some (mergeDoc doc data)

/-- `FirestoreRepo.get_state` (firestore_repo.py lines 36-68): the stored
document if it exists and the read succeeds, otherwise the default state.
A read failure is caught inside, so the function is total. -/
def FirestoreRepo.get_state (doc : Option Doc) (readOk : Bool) : Doc :=
  if readOk then
    match doc with
    | some d => d
    | none => FirestoreRepo.get_default_state
  else FirestoreRepo.get_default_state

/-- `FirestoreRepo.update_state` (firestore_repo.py lines 70-96): stamps
`updated_at`, merge-writes, and re-raises on write failure. -/
def FirestoreRepo.update_state (doc : Option Doc) (data : Doc) (writeOk : Bool)
    (t : Nat) : Except String (Option Doc) :=
  let data := { data with updated_at := some t }
  if writeOk then .ok (setMerge doc data) else .error "write_error"

/-- `FirestoreRepo.reset_state` (firestore_repo.py lines 98-112): overwrites
the whole document (no merge) with the default state; re-raises on failure. -/
def FirestoreRepo.reset_state (_doc : Option Doc) (writeOk : Bool) :
    Except String (Option Doc) :=
  if writeOk then .ok (some FirestoreRepo.get_default_state)
  else .error "write_error"

/-- The value the orchestrator reads as `state.get("last_success_step", -1)`
from the stored document (with `-1` also when no document exists). -/
def persistedLss (doc : Option Doc) : Int :=
  (doc.bind Doc.last_success_step).getD (-1)

/-- One step's result dictionary (the dicts built in saga_orchestrator.py at
lines 128-132, 232-238, 251-257, 263-268).  Keys absent from a given dict are
`none`. -/
structure StepResult where
  step : String
  status : String
  index : Nat
  attempts : Option Nat := none
  result : Option String := none
  error : Option String := none
  deriving DecidableEq

/-- The `execution_result` dictionary (saga_orchestrator.py lines 112-116,
154-156). -/
structure ExecutionResult where
  status : String
  steps_executed : List StepResult
  errors : List String := []
  failed_step : Option String := none
  failed_step_index : Option Nat := none
  deriving DecidableEq

/-- The two shapes `execute` can return: the early
`{"status": "ALREADY_IN_PROGRESS", "message": ...}` dict (lines 96-99), or a
finalized `ExecutionResult`. -/
inductive ExecOutcome where
  | alreadyInProgress (message : String)
  | completed (result : ExecutionResult)
  deriving DecidableEq

/-- The `status` key of the returned dictionary. -/
def ExecOutcome.statusOf : ExecOutcome → String
  | .alreadyInProgress _ => "ALREADY_IN_PROGRESS"
  | .completed r => r.status

/-- The `failed_step_index` key of the returned dictionary, when present. -/
def ExecOutcome.failedIndex : ExecOutcome → Option Nat
  | .alreadyInProgress _ => none
  | .completed r => r.failed_step_index

/-- Behavioural model of a `WorkflowStep`: `run` maps the 1-based attempt
number within one retry loop to either an error message (a raised exception)
or a result payload; `compensate` is the outcome of a `compensate()` call
(`.error` = the call raises). -/
structure Step where
  name : String
  run : Nat → Except String String
  compensate : Except String Unit

/-- Placeholder used only for out-of-range list indexing in statements. -/
def dummyStep : Step :=
  { name := "", run := fun _ => .error "", compensate := .ok () }

/-- Externally visible events of a run, in order: a `update_state` call
(recorded with the data dictionary the orchestrator passes, before the
`updated_at` stamp), a `step.run()` invocation, a `step.compensate()`
invocation (with whether it returned normally), a history append. -/
inductive Ev where
  | write (data : Doc)
  | runCall (name : String) (index : Nat) (attempt : Nat)
  | compCall (name : String) (index : Nat) (ok : Bool)
  | histAppend (result : ExecutionResult)
  deriving DecidableEq

/-- Projection of a `run()` invocation event. -/
def Ev.runOf : Ev → Option (String × Nat × Nat)
  | .runCall nm i a => some (nm, i, a)
  | _ => none

/-- Projection of a `compensate()` invocation event. -/
def Ev.compOf : Ev → Option (String × Nat)
  | .compCall nm i _ => some (nm, i)
  | _ => none

/-- The `last_success_step` value carried by a state write, if any. -/
def Ev.lssOf : Ev → Option Int
  | .write u => u.last_success_step
  | _ => none

/-- Projection of a history-append event. -/
def Ev.histOf : Ev → Option ExecutionResult
  | .histAppend r => some r
  | _ => none

/-- All `run()` invocations in a trace. -/
def runEvents (evs : List Ev) : List (String × Nat × Nat) :=
  evs.filterMap Ev.runOf

/-- All `compensate()` invocations in a trace, in order. -/
def compEvents (evs : List Ev) : List (String × Nat) :=
  evs.filterMap Ev.compOf

/-- The successive values written to `last_success_step` during a trace. -/
def lssWrites (evs : List Ev) : List Int :=
  evs.filterMap Ev.lssOf

/-- All history appends in a trace. -/
def histEvents (evs : List Ev) : List ExecutionResult :=
  evs.filterMap Ev.histOf

/-- The nominal (non-failing) `update_state` the orchestrator performs:
stamp `updated_at` and merge-write (firestore_repo.py lines 77-82). -/
def writeState (doc : Option Doc) (data : Doc) (t : Nat) : Option Doc :=
  setMerge doc { data with updated_at := some t }

/-- The progress dictionary persisted before each attempt
(saga_orchestrator.py lines 212-216). -/
def progressUpd (nm : String) (index : Nat) (attempt : Nat) : Doc :=
  { current_step := some (some nm)
    current_step_index := some (index : Int)
    current_step_attempt := some attempt }

/-- The retry loop of `SagaOrchestrator._execute_step_with_retry`
(saga_orchestrator.py lines 203-268), entered at a given 0-based `attempt`
with `remaining` iterations of `range(max_retries)` left.  Returns the
step-result dict, the document after the loop's writes, and the loop's
event trace. -/
def SagaOrchestrator.retryLoopAux (step : Step) (index : Nat)
    (max_retries : Nat) (t : Nat) :
    Nat → Nat → Option Doc → StepResult × Option Doc × List Ev
  | _, 0, doc =>
      -- the `range` is exhausted: the "should never reach here" fallback
      -- (lines 262-268); note: no "attempts" key in this dict
      ({ step := step.name, status := "FAILED", index := index,
         error := some "Max retries exceeded" }, doc, [])
  | attempt, remaining + 1, doc =>
      let upd := progressUpd step.name index (attempt + 1)
      let doc1 := writeState doc upd t
      match step.run (attempt + 1) with
      | .ok payload =>
          let upd2 : Doc := { last_success_step := some (index : Int) }
          ({ step := step.name, status := "SUCCESS", index := index,
             attempts := some (attempt + 1), result := some payload },
           writeState doc1 upd2 t,
           [Ev.write upd, Ev.runCall step.name index (attempt + 1),
            Ev.write upd2])
      | .error e =>
          if attempt = max_retries - 1 then
            ({ step := step.name, status := "FAILED", index := index,
               attempts := some (attempt + 1), error := some e },
             doc1,
             [Ev.write upd, Ev.runCall step.name index (attempt + 1)])
          else
            let r := SagaOrchestrator.retryLoopAux step index max_retries t
              (attempt + 1) remaining doc1
            (r.1, r.2.1,
             Ev.write upd :: Ev.runCall step.name index (attempt + 1) :: r.2.2)

/-- `SagaOrchestrator._execute_step_with_retry` (lines 188-268). -/
def SagaOrchestrator.execute_step_with_retry (step : Step) (index : Nat)
    (max_retries : Nat) (t : Nat) (doc : Option Doc) :
    StepResult × Option Doc × List Ev :=
  SagaOrchestrator.retryLoopAux step index max_retries t 0 max_retries doc

/-- `SagaOrchestrator._run_compensations` (lines 270-310): for every index in
`reversed(range(failed_step_index))`, invoke that step's `compensate()`; the
`hasattr` guard is always true (the base class defines `compensate`), and an
exception from `compensate()` is caught and the sweep continues, so the
sweep's trace does not depend on the outcomes. -/
def SagaOrchestrator.run_compensations (steps : List Step)
    (failed_step_index : Nat) : List Ev :=
  (List.range failed_step_index).reverse.map fun index =>
    let step := steps.getD index dummyStep
    Ev.compCall step.name index
      (match step.compensate with | .ok _ => true | .error _ => false)

/-- The step loop of `SagaOrchestrator.execute` (lines 119-186), iterating
over the suffix of `all` starting at `index` with the accumulated
`steps_executed` list `acc`.  `last_success_step` is the value read at the
start of the run. -/
def SagaOrchestrator.stepLoopAux (all : List Step) (max_retries : Nat)
    (last_success_step : Int) (t : Nat) :
    List Step → Nat → Option Doc → List StepResult →
      ExecOutcome × Option Doc × List Ev
  | [], _, doc, acc =>
      -- all steps completed successfully (lines 170-186)
      let res : ExecutionResult := { status := "SUCCESS", steps_executed := acc }
      let upd : Doc := { status := some "SUCCESS",
                         completed_at := some (some t),
                         last_success_step := some ((all.length : Int) - 1) }
      (.completed res, writeState doc upd t, [Ev.write upd, Ev.histAppend res])
  | step :: rest, index, doc, acc =>
      if (index : Int) ≤ last_success_step then
        -- skip already completed steps (lines 122-133)
        SagaOrchestrator.stepLoopAux all max_retries last_success_step t
          rest (index + 1) doc
          (acc ++ [{ step := step.name, status := "SKIPPED", index := index }])
      else
        let s := SagaOrchestrator.execute_step_with_retry step index
          max_retries t doc
        if s.1.status = "FAILED" then
          -- failure: compensate, persist FAILED, append history (lines 143-168)
          let res : ExecutionResult :=
            { status := "FAILED", steps_executed := acc ++ [s.1],
              failed_step := some step.name, failed_step_index := some index }
          let upd : Doc := { status := some "FAILED",
                             error := some s.1.error,
                             failed_step := some step.name,
                             completed_at := some (some t) }
          (.completed res, writeState s.2.1 upd t,
           s.2.2 ++ SagaOrchestrator.run_compensations all index ++
             [Ev.write upd, Ev.histAppend res])
        else
          let r := SagaOrchestrator.stepLoopAux all max_retries
            last_success_step t rest (index + 1) s.2.1 (acc ++ [s.1])
          (r.1, r.2.1, s.2.2 ++ r.2.2)

/-- `SagaOrchestrator.execute` (lines 71-186) under nominal infrastructure
(the state read and all writes succeed).  Returns the result dictionary, the
final stored document, and the run's event trace. -/
def SagaOrchestrator.execute (steps : List Step) (max_retries : Nat)
    (doc : Option Doc) (retry : Bool) (t : Nat) :
    ExecOutcome × Option Doc × List Ev :=
  let state := FirestoreRepo.get_state doc true
  if state.status = some "IN_PROGRESS" ∧ retry = false then
    (.alreadyInProgress "Workflow is already running", doc, [])
  else
    let last_success_step := state.last_success_step.getD (-1)
    let retry_count := if retry then state.retry_count.getD 0 else 0
    let upd : Doc := { status := some "IN_PROGRESS",
                       started_at := some (some t),
                       retry_count := some retry_count,
                       error := some none }
    let doc1 := writeState doc upd t
    let r := SagaOrchestrator.stepLoopAux steps max_retries last_success_step
      t steps 0 doc1 []
    (r.1, r.2.1, Ev.write upd :: r.2.2)

/-- `SagaOrchestrator.get_status` (lines 312-319): returns the repo state. -/
def SagaOrchestrator.get_status (doc : Option Doc) (readOk : Bool) : Doc :=
  FirestoreRepo.get_state doc readOk

/-- `SagaOrchestrator.reset` (lines 321-327): delegates to the repo. -/
def SagaOrchestrator.reset (doc : Option Doc) (writeOk : Bool) :
    Except String (Option Doc) :=
  FirestoreRepo.reset_state doc writeOk

/-! Concrete step behaviours used in scenario claims and witnesses. -/

/-- A step that either always succeeds or always raises, with
deterministic payload / error message derived from its name. -/
def mkStep (nm : String) (ok : Bool) : Step :=
  { name := nm
    run := fun _ => if ok then .ok (nm ++ "_result") else .error (nm ++ "_error")
    compensate := .ok () }

def sA : Step := mkStep "A" true
def sB : Step := mkStep "B" true
def sC : Step := mkStep "C" false
def sD : Step := mkStep "D" true

/-- A persisted document left by a failed run whose last successful step was
index 0. -/
def failedDoc0 : Doc :=
  { status := some "FAILED", last_success_step := some 0, retry_count := some 0 }

/-- A persisted document whose status is IN_PROGRESS. -/
def inProgressDoc : Doc := { status := some "IN_PROGRESS" }

/-- C2: for workflow [A,B,C,D] with max_retries = 2 from the default state,
where A and B succeed on attempt 1 and C raises on every attempt, execute
returns FAILED with failed_step "C" at index 2, steps_executed
[A:SUCCESS/1, B:SUCCESS/1, C:FAILED/2], never invokes D's run(), calls
compensate() on B then A in that order, and persists
last_success_step = 1 and status = FAILED. -/
theorem claim2_scenario_fail_at_c :
    (SagaOrchestrator.execute [sA, sB, sC, sD] 2 none false 0).1 =
      .completed
        { status := "FAILED"
          steps_executed :=
            [{ step := "A", status := "SUCCESS", index := 0,
               attempts := some 1, result := some "A_result" },
             { step := "B", status := "SUCCESS", index := 1,
               attempts := some 1, result := some "B_result" },
             { step := "C", status := "FAILED", index := 2,
               attempts := some 2, error := some "C_error" }]
          failed_step := some "C"
          failed_step_index := some 2 } ∧
    (∀ x ∈ runEvents (SagaOrchestrator.execute [sA, sB, sC, sD] 2 none false 0).2.2,
      x.1 ≠ "D") ∧
    compEvents (SagaOrchestrator.execute [sA, sB, sC, sD] 2 none false 0).2.2 =
      [("B", 1), ("A", 0)] ∧
    ((SagaOrchestrator.execute [sA, sB, sC, sD] 2 none false 0).2.1.bind
      Doc.last_success_step) = some 1 ∧
    ((SagaOrchestrator.execute [sA, sB, sC, sD] 2 none false 0).2.1.bind
      Doc.status) = some "FAILED" := by
  decide

/-- C5: when the state read at the start of execute has status IN_PROGRESS
and retry is false, execute returns the ALREADY_IN_PROGRESS result, leaves
the stored document untouched, and its event trace is empty (no state write,
no run() call, no compensate() call). -/
theorem claim5_already_in_progress (steps : List Step) (m : Nat)
    (doc : Option Doc) (t : Nat)
    (h : (FirestoreRepo.get_state doc true).status = some "IN_PROGRESS") :
    SagaOrchestrator.execute steps m doc false t =
      (.alreadyInProgress "Workflow is already running", doc, []) := by
  simp [SagaOrchestrator.execute, h]

theorem claim5_witness :
    (FirestoreRepo.get_state (some inProgressDoc) true).status =
      some "IN_PROGRESS" ∧
    SagaOrchestrator.execute [sA] 3 (some inProgressDoc) false 0 =
      (.alreadyInProgress "Workflow is already running",
       some inProgressDoc, []) :=
  ⟨by decide, claim5_already_in_progress [sA] 3 (some inProgressDoc) 0 (by decide)⟩

/-- C8: get_state returns the stored document when it exists and the read
succeeds, and the default NOT_STARTED state (last_success_step -1,
retry_count 0, null current_step/error/timestamps) both when no document
exists and when the read fails — a read failure never surfaces; update_state,
in contrast, propagates a write error to its caller. -/
theorem claim8_read_write_asymmetry (doc : Option Doc) (d data : Doc)
    (t : Nat) :
    FirestoreRepo.get_state (some d) true = d ∧
    FirestoreRepo.get_state none true = FirestoreRepo.get_default_state ∧
    FirestoreRepo.get_state doc false = FirestoreRepo.get_default_state ∧
    FirestoreRepo.get_default_state =
      { status := some "NOT_STARTED", last_success_step := some (-1),
        current_step := some none, error := some none,
        started_at := some none, completed_at := some none,
        retry_count := some 0 } ∧
    FirestoreRepo.update_state doc data false t = .error "write_error" ∧
    FirestoreRepo.update_state doc data true t =
      .ok (setMerge doc { data with updated_at := some t }) :=
  ⟨rfl, rfl, rfl, rfl, rfl, rfl⟩

/-- C9: after reset() succeeds the whole document is overwritten with the
default state regardless of its previous contents, so an immediate
get_status() returns exactly status NOT_STARTED, last_success_step -1,
current_step null, error null, retry_count 0, with null started_at and
completed_at (and no other keys set). -/
theorem claim9_reset_then_get_status (doc : Option Doc) :
    SagaOrchestrator.reset doc true =
      .ok (some FirestoreRepo.get_default_state) ∧
    SagaOrchestrator.get_status (some FirestoreRepo.get_default_state) true =
      { status := some "NOT_STARTED", last_success_step := some (-1),
        current_step := some none, current_step_index := none,
        current_step_attempt := none, error := some none,
        started_at := some none, completed_at := some none,
        retry_count := some 0, failed_step := none, updated_at := none } :=
  ⟨rfl, rfl⟩

/-- C10: with an empty step list, execute(retry=false) from the default state
returns SUCCESS with an empty steps_executed list, persists status SUCCESS
and last_success_step -1 (the same value as the never-run default), and
invokes no step and no compensation. -/
theorem claim10_empty_workflow :
    (SagaOrchestrator.execute [] 3 none false 0).1 =
      .completed { status := "SUCCESS", steps_executed := [], errors := [] } ∧
    ((SagaOrchestrator.execute [] 3 none false 0).2.1.bind Doc.status) =
      some "SUCCESS" ∧
    ((SagaOrchestrator.execute [] 3 none false 0).2.1.bind
      Doc.last_success_step) = some (-1) ∧
    persistedLss (SagaOrchestrator.execute [] 3 none false 0).2.1 =
      persistedLss none ∧
    runEvents (SagaOrchestrator.execute [] 3 none false 0).2.2 = [] ∧
    compEvents (SagaOrchestrator.execute [] 3 none false 0).2.2 = [] := by
  decide

/-- C1 counterexample: a persisted FAILED state records last_success_step = 0;
resuming with retry=true, step B (index 1) succeeds and step C (index 2)
fails, after which compensate() is invoked on step A at index 0 ≤ 0 — so a
retry run does re-compensate a step whose index is ≤ the persisted
last_success_step. -/
theorem claim1_counterexample :
    failedDoc0.status = some "FAILED" ∧
    failedDoc0.last_success_step = some 0 ∧
    ("A", 0) ∈ compEvents
      (SagaOrchestrator.execute [sA, sB, sC] 1 (some failedDoc0) true 0).2.2 := by
  decide

/-! Helper lemmas about merge-writes and the retry loop. -/

theorem mergeDoc_last_success_step (doc : Option Doc) (data : Doc) :
    (mergeDoc doc data).last_success_step =
      data.last_success_step.orElse fun _ => doc.bind Doc.last_success_step := by
  cases doc <;> cases h : data.last_success_step <;>
    simp [mergeDoc, h, Option.orElse]

theorem persistedLss_writeState (doc : Option Doc) (data : Doc) (t : Nat) :
    persistedLss (writeState doc data t) =
      data.last_success_step.getD (persistedLss doc) := by
  cases doc <;> cases h : data.last_success_step <;>
    simp [persistedLss, writeState, setMerge, mergeDoc, h, Option.orElse]

theorem retryLoopAux_trace (step : Step) (index m t : Nat) :
    ∀ rem a doc,
      ∀ ev ∈ (SagaOrchestrator.retryLoopAux step index m t a rem doc).2.2,
        (∃ u, ev = Ev.write u) ∨ ∃ b, ev = Ev.runCall step.name index b := by
  intro rem
  induction rem with
  | zero =>
      intro a doc ev hev
      simp [SagaOrchestrator.retryLoopAux] at hev
  | succ n ih =>
      intro a doc ev hev
      rw [SagaOrchestrator.retryLoopAux] at hev
      cases hrun : step.run (a + 1) with
      | ok p =>
          simp only [hrun] at hev
          simp at hev
          rcases hev with h | h | h
          · exact .inl ⟨_, h⟩
          · exact .inr ⟨_, h⟩
          · exact .inl ⟨_, h⟩
      | error e =>
          simp only [hrun] at hev
          by_cases hm : a = m - 1
          · simp [hm] at hev
            rcases hev with h | h
            · exact .inl ⟨_, h⟩
            · exact .inr ⟨_, h⟩
          · simp [hm] at hev
            rcases hev with h | h | h
            · exact .inl ⟨_, h⟩
            · exact .inr ⟨_, h⟩
            · exact ih (a + 1) _ ev h

theorem retryLoopAux_compEvents (step : Step) (index m t : Nat)
    (rem a : Nat) (doc : Option Doc) :
    compEvents (SagaOrchestrator.retryLoopAux step index m t a rem doc).2.2 = [] := by
  rw [compEvents, List.filterMap_eq_nil_iff]
  intro ev hev
  rcases retryLoopAux_trace step index m t rem a doc ev hev with ⟨u, rfl⟩ | ⟨b, rfl⟩ <;> rfl

theorem retryLoopAux_histEvents (step : Step) (index m t : Nat)
    (rem a : Nat) (doc : Option Doc) :
    histEvents (SagaOrchestrator.retryLoopAux step index m t a rem doc).2.2 = [] := by
  rw [histEvents, List.filterMap_eq_nil_iff]
  intro ev hev
  rcases retryLoopAux_trace step index m t rem a doc ev hev with ⟨u, rfl⟩ | ⟨b, rfl⟩ <;> rfl

theorem retryLoopAux_status (step : Step) (index m t : Nat) :
    ∀ rem a doc,
      (SagaOrchestrator.retryLoopAux step index m t a rem doc).1.status = "SUCCESS" ∨
      (SagaOrchestrator.retryLoopAux step index m t a rem doc).1.status = "FAILED" := by
  intro rem
  induction rem with
  | zero => intro a doc; right; rfl
  | succ n ih =>
      intro a doc
      rw [SagaOrchestrator.retryLoopAux]
      cases hrun : step.run (a + 1) with
      | ok p => left; rfl
      | error e =>
          by_cases hm : a = m - 1
          · simp [hm]
          · simp [hm]
            exact ih (a + 1) _

theorem retryLoopAux_lssWrites (step : Step) (index m t : Nat) :
    ∀ rem a doc,
      lssWrites (SagaOrchestrator.retryLoopAux step index m t a rem doc).2.2 =
        if (SagaOrchestrator.retryLoopAux step index m t a rem doc).1.status = "SUCCESS"
        then [(index : Int)] else [] := by
  intro rem
  induction rem with
  | zero => intro a doc; simp [SagaOrchestrator.retryLoopAux, lssWrites]
  | succ n ih =>
      intro a doc
      rw [SagaOrchestrator.retryLoopAux]
      cases hrun : step.run (a + 1) with
      | ok p => simp [lssWrites, Ev.lssOf, progressUpd]
      | error e =>
          by_cases hm : a = m - 1
          · simp [hm, lssWrites, Ev.lssOf, progressUpd]
          · simp only [hm, if_false]
            simp only [lssWrites, List.filterMap_cons]
            simp [Ev.lssOf, progressUpd]
            exact ih (a + 1) _

theorem retryLoopAux_persistedLss (step : Step) (index m t : Nat) :
    ∀ rem a doc,
      persistedLss (SagaOrchestrator.retryLoopAux step index m t a rem doc).2.1 =
        if (SagaOrchestrator.retryLoopAux step index m t a rem doc).1.status = "SUCCESS"
        then (index : Int) else persistedLss doc := by
  intro rem
  induction rem with
  | zero => intro a doc; simp [SagaOrchestrator.retryLoopAux]
  | succ n ih =>
      intro a doc
      rw [SagaOrchestrator.retryLoopAux]
      cases hrun : step.run (a + 1) with
      | ok p =>
          simp [persistedLss_writeState, progressUpd]
      | error e =>
          by_cases hm : a = m - 1
          · simp [hm, persistedLss_writeState, progressUpd]
          · simp only [hm, if_false]
            rw [ih (a + 1)]
            simp [persistedLss_writeState, progressUpd]

/-! List indexing helpers relating `drop` to `getD`. -/

theorem drop_cons_getD {α : Type} (dflt : α) :
    ∀ (l : List α) (i : Nat) (s : α) (r : List α),
      l.drop i = s :: r → l.getD i dflt = s := by
  intro l
  induction l with
  | nil => intro i s r h; simp at h
  | cons a l ih =>
      intro i s r h
      cases i with
      | zero => simp at h; simp [h.1]
      | succ j => exact ih j s r h

theorem drop_cons_drop {α : Type} :
    ∀ (l : List α) (i : Nat) (s : α) (r : List α),
      l.drop i = s :: r → l.drop (i + 1) = r := by
  intro l
  induction l with
  | nil => intro i s r h; simp at h
  | cons a l ih =>
      intro i s r h
      cases i with
      | zero => simp at h ⊢; exact h.2
      | succ j => exact ih j s r h

theorem drop_cons_lt {α : Type} :
    ∀ (l : List α) (i : Nat) (s : α) (r : List α),
      l.drop i = s :: r → i < l.length := by
  intro l
  induction l with
  | nil => intro i s r h; simp at h
  | cons a l ih =>
      intro i s r h
      cases i with
      | zero => simp
      | succ j => exact Nat.succ_lt_succ (ih j s r h)

theorem drop_nil_le {α : Type} :
    ∀ (l : List α) (i : Nat), l.drop i = [] → l.length ≤ i := by
  intro l
  induction l with
  | nil => intro i _; simp
  | cons a l ih =>
      intro i h
      cases i with
      | zero => simp at h
      | succ j => exact Nat.succ_le_succ (ih j h)

/-! The compensation sweep. -/

theorem run_compensations_compEvents (steps : List Step) (k : Nat) :
    compEvents (SagaOrchestrator.run_compensations steps k) =
      (List.range k).reverse.map fun i => ((steps.getD i dummyStep).name, i) := by
  rw [compEvents, SagaOrchestrator.run_compensations, List.filterMap_map]
  rw [List.filterMap_eq_map_iff_forall_eq_some.mpr]
  intro i _
  rfl

theorem run_compensations_lssWrites (steps : List Step) (k : Nat) :
    lssWrites (SagaOrchestrator.run_compensations steps k) = [] := by
  rw [lssWrites, List.filterMap_eq_nil_iff]
  intro ev hev
  rw [SagaOrchestrator.run_compensations] at hev
  simp at hev
  obtain ⟨i, _, rfl⟩ := hev
  rfl

theorem run_compensations_runEvents (steps : List Step) (k : Nat) :
    runEvents (SagaOrchestrator.run_compensations steps k) = [] := by
  rw [runEvents, List.filterMap_eq_nil_iff]
  intro ev hev
  rw [SagaOrchestrator.run_compensations] at hev
  simp at hev
  obtain ⟨i, _, rfl⟩ := hev
  rfl

theorem run_compensations_histEvents (steps : List Step) (k : Nat) :
    histEvents (SagaOrchestrator.run_compensations steps k) = [] := by
  rw [histEvents, List.filterMap_eq_nil_iff]
  intro ev hev
  rw [SagaOrchestrator.run_compensations] at hev
  simp at hev
  obtain ⟨i, _, rfl⟩ := hev
  rfl

/-! Wrappers restating the retry-loop lemmas for
`execute_step_with_retry` (which enters the loop at attempt 0). -/

theorem execute_step_with_retry_compEvents (step : Step) (index m t : Nat)
    (doc : Option Doc) :
    compEvents (SagaOrchestrator.execute_step_with_retry step index m t doc).2.2 = [] :=
  retryLoopAux_compEvents step index m t m 0 doc

theorem execute_step_with_retry_histEvents (step : Step) (index m t : Nat)
    (doc : Option Doc) :
    histEvents (SagaOrchestrator.execute_step_with_retry step index m t doc).2.2 = [] :=
  retryLoopAux_histEvents step index m t m 0 doc

theorem execute_step_with_retry_status (step : Step) (index m t : Nat)
    (doc : Option Doc) :
    (SagaOrchestrator.execute_step_with_retry step index m t doc).1.status = "SUCCESS" ∨
    (SagaOrchestrator.execute_step_with_retry step index m t doc).1.status = "FAILED" :=
  retryLoopAux_status step index m t m 0 doc

theorem execute_step_with_retry_lssWrites (step : Step) (index m t : Nat)
    (doc : Option Doc) :
    lssWrites (SagaOrchestrator.execute_step_with_retry step index m t doc).2.2 =
      if (SagaOrchestrator.execute_step_with_retry step index m t doc).1.status = "SUCCESS"
      then [(index : Int)] else [] :=
  retryLoopAux_lssWrites step index m t m 0 doc

theorem execute_step_with_retry_persistedLss (step : Step) (index m t : Nat)
    (doc : Option Doc) :
    persistedLss (SagaOrchestrator.execute_step_with_retry step index m t doc).2.1 =
      if (SagaOrchestrator.execute_step_with_retry step index m t doc).1.status = "SUCCESS"
      then (index : Int) else persistedLss doc :=
  retryLoopAux_persistedLss step index m t m 0 doc

theorem execute_step_with_retry_runEvents_index (step : Step) (index m t : Nat)
    (doc : Option Doc) :
    ∀ x ∈ runEvents (SagaOrchestrator.execute_step_with_retry step index m t doc).2.2,
      x.2.1 = index := by
  intro x hx
  rw [runEvents, List.mem_filterMap] at hx
  obtain ⟨ev, hev, hx⟩ := hx
  rcases retryLoopAux_trace step index m t m 0 doc ev hev with ⟨u, rfl⟩ | ⟨b, rfl⟩
  · simp [Ev.runOf] at hx
  · simp [Ev.runOf] at hx
    rw [← hx]

/-! The step loop: characterization of a failed run's compensation sweep. -/

theorem stepLoopAux_failed_comps (all : List Step) (m : Nat) (lss : Int) (t : Nat) :
    ∀ (suffix : List Step) (index : Nat) (doc : Option Doc)
      (acc : List StepResult) (k : Nat),
      (SagaOrchestrator.stepLoopAux all m lss t suffix index doc acc).1.failedIndex = some k →
      (SagaOrchestrator.stepLoopAux all m lss t suffix index doc acc).1.statusOf = "FAILED" ∧
      compEvents (SagaOrchestrator.stepLoopAux all m lss t suffix index doc acc).2.2 =
        (List.range k).reverse.map fun i => ((all.getD i dummyStep).name, i) := by
  intro suffix
  induction suffix with
  | nil =>
      intro index doc acc k hk
      simp [SagaOrchestrator.stepLoopAux, ExecOutcome.failedIndex] at hk
  | cons step rest ih =>
      intro index doc acc k hk
      rw [SagaOrchestrator.stepLoopAux] at hk ⊢
      by_cases hskip : (index : Int) ≤ lss
      · simp only [if_pos hskip] at hk ⊢
        exact ih (index + 1) doc _ k hk
      · simp only [if_neg hskip] at hk ⊢
        by_cases hfail :
            (SagaOrchestrator.execute_step_with_retry step index m t doc).1.status = "FAILED"
        · simp only [if_pos hfail] at hk ⊢
          simp [ExecOutcome.failedIndex] at hk
          subst hk
          refine ⟨rfl, ?_⟩
          simp only [compEvents, List.filterMap_append]
          rw [← compEvents, ← compEvents, ← compEvents,
            execute_step_with_retry_compEvents, run_compensations_compEvents]
          simp [compEvents, Ev.compOf]
        · simp only [if_neg hfail] at hk ⊢
          obtain ⟨h1, h2⟩ := ih (index + 1)
            (SagaOrchestrator.execute_step_with_retry step index m t doc).2.1 _ k hk
          refine ⟨h1, ?_⟩
          simp only [compEvents, List.filterMap_append]
          rw [← compEvents, ← compEvents, execute_step_with_retry_compEvents]
          simpa using h2

/-- C3: in every run of execute that produces a FAILED result at step index
k, compensate() is invoked on exactly the steps k-1 down to 0, once each, in
strictly descending index order — for arbitrary compensate() outcomes of
every step (a raising compensate() is caught and the sweep continues) — and
the run's result status stays FAILED with no distinct error surfaced. -/
theorem claim3_compensation_sweep (steps : List Step) (m : Nat)
    (doc : Option Doc) (retry : Bool) (t : Nat) (k : Nat)
    (hk : (SagaOrchestrator.execute steps m doc retry t).1.failedIndex = some k) :
    (SagaOrchestrator.execute steps m doc retry t).1.statusOf = "FAILED" ∧
    compEvents (SagaOrchestrator.execute steps m doc retry t).2.2 =
      (List.range k).reverse.map fun i => ((steps.getD i dummyStep).name, i) := by
  rw [SagaOrchestrator.execute] at hk ⊢
  by_cases hip : (FirestoreRepo.get_state doc true).status = some "IN_PROGRESS" ∧
      retry = false
  · simp only [if_pos hip] at hk
    simp [ExecOutcome.failedIndex] at hk
  · simp only [if_neg hip] at hk ⊢
    obtain ⟨h1, h2⟩ := stepLoopAux_failed_comps steps m _ t steps 0 _ [] k hk
    refine ⟨h1, ?_⟩
    simp only [compEvents, List.filterMap_cons, Ev.compOf] at h2 ⊢
    exact h2

theorem claim3_witness :
    (SagaOrchestrator.execute [sA, sC] 1 none false 0).1.failedIndex = some 1 ∧
    ((SagaOrchestrator.execute [sA, sC] 1 none false 0).1.statusOf = "FAILED" ∧
      compEvents (SagaOrchestrator.execute [sA, sC] 1 none false 0).2.2 =
        (List.range 1).reverse.map fun i =>
          (([sA, sC].getD i dummyStep).name, i)) :=
  ⟨by decide, claim3_compensation_sweep [sA, sC] 1 none false 0 1 (by decide)⟩

/-! Trace projections distribute over concatenation. -/

theorem runEvents_append (a b : List Ev) :
    runEvents (a ++ b) = runEvents a ++ runEvents b := by
  simp [runEvents]

theorem compEvents_append (a b : List Ev) :
    compEvents (a ++ b) = compEvents a ++ compEvents b := by
  simp [compEvents]

theorem lssWrites_append (a b : List Ev) :
    lssWrites (a ++ b) = lssWrites a ++ lssWrites b := by
  simp [lssWrites]

theorem histEvents_append (a b : List Ev) :
    histEvents (a ++ b) = histEvents a ++ histEvents b := by
  simp [histEvents]

/-- Every `run()` invocation of a step loop targets an index strictly above
the `last_success_step` value read at the start of the run. -/
theorem stepLoopAux_runEvents_gt (all : List Step) (m : Nat) (lss : Int) (t : Nat) :
    ∀ suffix index doc acc,
      ∀ x ∈ runEvents
          (SagaOrchestrator.stepLoopAux all m lss t suffix index doc acc).2.2,
        lss < (x.2.1 : Int) := by
  intro suffix
  induction suffix with
  | nil =>
      intro index doc acc x hx
      simp [SagaOrchestrator.stepLoopAux, runEvents, Ev.runOf] at hx
  | cons step rest ih =>
      intro index doc acc x hx
      rw [SagaOrchestrator.stepLoopAux] at hx
      by_cases hskip : (index : Int) ≤ lss
      · simp only [if_pos hskip] at hx
        exact ih (index + 1) doc _ x hx
      · simp only [if_neg hskip] at hx
        by_cases hfail :
            (SagaOrchestrator.execute_step_with_retry step index m t doc).1.status = "FAILED"
        · simp only [if_pos hfail] at hx
          rw [runEvents_append, runEvents_append] at hx
          rw [run_compensations_runEvents] at hx
          simp only [List.mem_append] at hx
          rcases hx with (hx | hx) | hx
          · rw [execute_step_with_retry_runEvents_index step index m t doc x hx]
            exact lt_of_not_le hskip
          · simp at hx
          · simp [runEvents, Ev.runOf] at hx
        · simp only [if_neg hfail] at hx
          rw [runEvents_append] at hx
          rcases List.mem_append.mp hx with hx | hx
          · rw [execute_step_with_retry_runEvents_index step index m t doc x hx]
            exact lt_of_not_le hskip
          · exact ih (index + 1) _ _ x hx

/-- The step loop records a SKIPPED result for every step whose index is
within range and at most the `last_success_step` value read at the start. -/
theorem stepLoopAux_skipped (all : List Step) (m : Nat) (lss : Int) (t : Nat) :
    ∀ suffix index doc acc,
      suffix = all.drop index →
      ∃ r, (SagaOrchestrator.stepLoopAux all m lss t suffix index doc acc).1 =
          .completed r ∧
        (∀ sr ∈ acc, sr ∈ r.steps_executed) ∧
        (∀ j, index ≤ j → j < all.length → (j : Int) ≤ lss →
          { step := (all.getD j dummyStep).name, status := "SKIPPED",
            index := j } ∈ r.steps_executed) := by
  intro suffix
  induction suffix with
  | nil =>
      intro index doc acc hdrop
      refine ⟨_, rfl, ?_, ?_⟩
      · intro sr h
        exact h
      · intro j hij hjn _
        have := drop_nil_le all index hdrop.symm
        omega
  | cons step rest ih =>
      intro index doc acc hdrop
      rw [SagaOrchestrator.stepLoopAux]
      by_cases hskip : (index : Int) ≤ lss
      · simp only [if_pos hskip]
        obtain ⟨r, h1, h2, h3⟩ := ih (index + 1) doc
          (acc ++ [{ step := step.name, status := "SKIPPED", index := index }])
          (drop_cons_drop all index step rest hdrop.symm).symm
        refine ⟨r, h1, ?_, ?_⟩
        · intro sr hsr
          exact h2 sr (by simp [hsr])
        · intro j hij hjn hjl
          rcases Nat.eq_or_lt_of_le hij with rfl | hlt
          · have hname : all.getD index dummyStep = step :=
              drop_cons_getD dummyStep all index step rest hdrop.symm
            apply h2
            rw [hname]
            simp
          · exact h3 j hlt hjn hjl
      · simp only [if_neg hskip]
        by_cases hfail :
            (SagaOrchestrator.execute_step_with_retry step index m t doc).1.status = "FAILED"
        · simp only [if_pos hfail]
          refine ⟨_, rfl, ?_, ?_⟩
          · intro sr hsr
            simp [hsr]
          · intro j hij hjn hjl
            have : (index : Int) ≤ (j : Int) := by exact_mod_cast hij
            exact absurd (le_trans this hjl) hskip
        · simp only [if_neg hfail]
          obtain ⟨r, h1, h2, h3⟩ := ih (index + 1) _
            (acc ++ [(SagaOrchestrator.execute_step_with_retry step index m t doc).1])
            (drop_cons_drop all index step rest hdrop.symm).symm
          refine ⟨r, h1, ?_, ?_⟩
          · intro sr hsr
            exact h2 sr (by simp [hsr])
          · intro j hij hjn hjl
            rcases Nat.eq_or_lt_of_le hij with rfl | hlt
            · exact absurd hjl hskip
            · exact h3 j hlt hjn hjl

theorem runEvents_cons_write (u : Doc) (l : List Ev) :
    runEvents (Ev.write u :: l) = runEvents l := rfl

theorem compEvents_cons_write (u : Doc) (l : List Ev) :
    compEvents (Ev.write u :: l) = compEvents l := rfl

theorem histEvents_cons_write (u : Doc) (l : List Ev) :
    histEvents (Ev.write u :: l) = histEvents l := rfl

/-- The `last_success_step` value execute reads at the start of a run. -/
def readLss (doc : Option Doc) : Int :=
  (FirestoreRepo.get_state doc true).last_success_step.getD (-1)

/-- The IN_PROGRESS record execute persists before running steps
(saga_orchestrator.py lines 105-110). -/
def initUpd (doc : Option Doc) (retry : Bool) (t : Nat) : Doc :=
  { status := some "IN_PROGRESS"
    started_at := some (some t)
    retry_count :=
      some (if retry then (FirestoreRepo.get_state doc true).retry_count.getD 0 else 0)
    error := some none }

/-- Unfolding of `execute` when the IN_PROGRESS guard does not fire. -/
theorem execute_eq_of_not_in_progress (steps : List Step) (m : Nat)
    (doc : Option Doc) (retry : Bool) (t : Nat)
    (h : ¬ ((FirestoreRepo.get_state doc true).status = some "IN_PROGRESS" ∧
        retry = false)) :
    SagaOrchestrator.execute steps m doc retry t =
      ((SagaOrchestrator.stepLoopAux steps m (readLss doc) t steps 0
          (writeState doc (initUpd doc retry t) t) []).1,
       (SagaOrchestrator.stepLoopAux steps m (readLss doc) t steps 0
          (writeState doc (initUpd doc retry t) t) []).2.1,
       Ev.write (initUpd doc retry t) ::
         (SagaOrchestrator.stepLoopAux steps m (readLss doc) t steps 0
            (writeState doc (initUpd doc retry t) t) []).2.2) := by
  rw [SagaOrchestrator.execute]
  simp only [if_neg h]
  rfl

/-- C1 (amended): resuming with retry=true from a FAILED persisted state
whose last_success_step is s never invokes run() on any step with index ≤ s,
and each such in-range step is recorded as SKIPPED; the compensation sweep
triggered by a later failure, however, is not limited by s — it invokes
compensate() on every index below the failing index, including indexes ≤ s. -/
theorem claim1_resume_never_reruns (steps : List Step) (m : Nat) (d : Doc)
    (t : Nat) (s : Int)
    (_hst : d.status = some "FAILED") (hlss : d.last_success_step = some s) :
    (∀ x ∈ runEvents (SagaOrchestrator.execute steps m (some d) true t).2.2,
      s < (x.2.1 : Int)) ∧
    (∃ r, (SagaOrchestrator.execute steps m (some d) true t).1 = .completed r ∧
      ∀ j, j < steps.length → (j : Int) ≤ s →
        { step := (steps.getD j dummyStep).name, status := "SKIPPED",
          index := j } ∈ r.steps_executed) ∧
    (∀ k, (SagaOrchestrator.execute steps m (some d) true t).1.failedIndex =
        some k →
      compEvents (SagaOrchestrator.execute steps m (some d) true t).2.2 =
        (List.range k).reverse.map fun i =>
          ((steps.getD i dummyStep).name, i)) := by
  have hcond : ¬ ((FirestoreRepo.get_state (some d) true).status =
      some "IN_PROGRESS" ∧ (true : Bool) = false) := by simp
  rw [execute_eq_of_not_in_progress steps m (some d) true t hcond]
  have hread : readLss (some d) = s := by
    simp [readLss, FirestoreRepo.get_state, hlss]
  rw [hread]
  refine ⟨?_, ?_, ?_⟩
  · intro x hx
    rw [runEvents_cons_write] at hx
    exact stepLoopAux_runEvents_gt steps m s t steps 0 _ [] x hx
  · obtain ⟨r, h1, _, h3⟩ := stepLoopAux_skipped steps m s t steps 0
      (writeState (some d) (initUpd (some d) true t) t) [] (by simp)
    exact ⟨r, h1, fun j hj hjs => h3 j (Nat.zero_le j) hj hjs⟩
  · intro k hk
    obtain ⟨_, h2⟩ := stepLoopAux_failed_comps steps m s t steps 0
      (writeState (some d) (initUpd (some d) true t) t) [] k hk
    rw [compEvents_cons_write]
    exact h2

theorem claim1_witness :
    failedDoc0.status = some "FAILED" ∧
    failedDoc0.last_success_step = some 0 ∧
    ((∀ x ∈ runEvents
        (SagaOrchestrator.execute [sA, sB] 1 (some failedDoc0) true 0).2.2,
        (0 : Int) < (x.2.1 : Int)) ∧
      (∃ r, (SagaOrchestrator.execute [sA, sB] 1 (some failedDoc0) true 0).1 =
          .completed r ∧
        ∀ j, j < [sA, sB].length → (j : Int) ≤ (0 : Int) →
          { step := ([sA, sB].getD j dummyStep).name, status := "SKIPPED",
            index := j } ∈ r.steps_executed) ∧
      (∀ k, (SagaOrchestrator.execute [sA, sB] 1
            (some failedDoc0) true 0).1.failedIndex = some k →
        compEvents (SagaOrchestrator.execute [sA, sB] 1
            (some failedDoc0) true 0).2.2 =
          (List.range k).reverse.map fun i =>
            (([sA, sB].getD i dummyStep).name, i))) :=
  ⟨rfl, rfl, claim1_resume_never_reruns [sA, sB] 1 failedDoc0 0 0 rfl rfl⟩

/-- If a step loop returns a result none of whose step results is FAILED,
the loop ran to the end: the result is SUCCESS, the success record was
persisted, and exactly one history entry — that result — was appended. -/
theorem stepLoopAux_all_ok (all : List Step) (m : Nat) (lss : Int) (t : Nat) :
    ∀ suffix index doc acc r,
      (SagaOrchestrator.stepLoopAux all m lss t suffix index doc acc).1 =
        .completed r →
      (∀ sr ∈ r.steps_executed, sr.status ≠ "FAILED") →
      r.status = "SUCCESS" ∧
      ((SagaOrchestrator.stepLoopAux all m lss t suffix index doc acc).2.1.bind
        Doc.status = some "SUCCESS") ∧
      ((SagaOrchestrator.stepLoopAux all m lss t suffix index doc acc).2.1.bind
        Doc.completed_at = some (some t)) ∧
      ((SagaOrchestrator.stepLoopAux all m lss t suffix index doc acc).2.1.bind
        Doc.last_success_step = some ((all.length : Int) - 1)) ∧
      histEvents (SagaOrchestrator.stepLoopAux all m lss t suffix index doc acc).2.2 =
        [r] := by
  intro suffix
  induction suffix with
  | nil =>
      intro index doc acc r h1 hall
      rw [SagaOrchestrator.stepLoopAux] at h1 ⊢
      simp only [ExecOutcome.completed.injEq] at h1
      subst h1
      refine ⟨rfl, ?_, ?_, ?_, ?_⟩
      · cases doc <;> simp [writeState, setMerge, mergeDoc, Option.orElse]
      · cases doc <;> simp [writeState, setMerge, mergeDoc, Option.orElse]
      · cases doc <;> simp [writeState, setMerge, mergeDoc, Option.orElse]
      · simp [histEvents, Ev.histOf]
  | cons step rest ih =>
      intro index doc acc r h1 hall
      rw [SagaOrchestrator.stepLoopAux] at h1 ⊢
      by_cases hskip : (index : Int) ≤ lss
      · simp only [if_pos hskip] at h1 ⊢
        exact ih (index + 1) doc _ r h1 hall
      · simp only [if_neg hskip] at h1 ⊢
        by_cases hfail :
            (SagaOrchestrator.execute_step_with_retry step index m t doc).1.status = "FAILED"
        · exfalso
          simp only [if_pos hfail] at h1
          simp only [ExecOutcome.completed.injEq] at h1
          apply hall ((SagaOrchestrator.execute_step_with_retry step index m t doc).1)
            _ hfail
          rw [← h1]
          simp
        · simp only [if_neg hfail] at h1 ⊢
          obtain ⟨g1, g2, g3, g4, g5⟩ := ih (index + 1) _ _ r h1 hall
          refine ⟨g1, g2, g3, g4, ?_⟩
          rw [histEvents_append, execute_step_with_retry_histEvents]
          simpa using g5

/-- C7: when execute returns an ExecutionResult none of whose step results is
FAILED (every step succeeded or was skipped), the result status is SUCCESS;
status SUCCESS, completed_at, and last_success_step = (number of steps) - 1
are persisted; and exactly one history entry, holding that ExecutionResult,
is appended. -/
theorem claim7_success_finalization (steps : List Step) (m : Nat)
    (doc : Option Doc) (retry : Bool) (t : Nat) (r : ExecutionResult)
    (hr : (SagaOrchestrator.execute steps m doc retry t).1 = .completed r)
    (hall : ∀ sr ∈ r.steps_executed, sr.status ≠ "FAILED") :
    r.status = "SUCCESS" ∧
    ((SagaOrchestrator.execute steps m doc retry t).2.1.bind Doc.status =
      some "SUCCESS") ∧
    ((SagaOrchestrator.execute steps m doc retry t).2.1.bind Doc.completed_at =
      some (some t)) ∧
    ((SagaOrchestrator.execute steps m doc retry t).2.1.bind
      Doc.last_success_step = some ((steps.length : Int) - 1)) ∧
    histEvents (SagaOrchestrator.execute steps m doc retry t).2.2 = [r] := by
  by_cases hip : (FirestoreRepo.get_state doc true).status = some "IN_PROGRESS" ∧
      retry = false
  · rw [SagaOrchestrator.execute] at hr
    simp only [if_pos hip] at hr
    simp at hr
  · rw [execute_eq_of_not_in_progress steps m doc retry t hip] at hr ⊢
    obtain ⟨h1, h2, h3, h4, h5⟩ := stepLoopAux_all_ok steps m (readLss doc) t
      steps 0 _ [] r hr hall
    exact ⟨h1, h2, h3, h4, by rw [histEvents_cons_write]; exact h5⟩

def stepResultA : StepResult :=
  { step := "A", status := "SUCCESS", index := 0, attempts := some 1,
    result := some "A_result" }

def successResultA : ExecutionResult :=
  { status := "SUCCESS", steps_executed := [stepResultA] }

theorem claim7_witness :
    (SagaOrchestrator.execute [sA] 1 none false 0).1 =
      .completed successResultA ∧
    (∀ sr ∈ successResultA.steps_executed, sr.status ≠ "FAILED") ∧
    (successResultA.status = "SUCCESS" ∧
      ((SagaOrchestrator.execute [sA] 1 none false 0).2.1.bind Doc.status =
        some "SUCCESS") ∧
      ((SagaOrchestrator.execute [sA] 1 none false 0).2.1.bind
        Doc.completed_at = some (some 0)) ∧
      ((SagaOrchestrator.execute [sA] 1 none false 0).2.1.bind
        Doc.last_success_step = some (([sA].length : Int) - 1)) ∧
      histEvents (SagaOrchestrator.execute [sA] 1 none false 0).2.2 =
        [successResultA]) :=
  ⟨by decide, by decide,
   claim7_success_finalization [sA] 1 none false 0 successResultA
     (by decide) (by decide)⟩

/-- The two events of one attempt: the progress write performed before the
attempt, then the `run()` invocation. -/
def attemptEvs (nm : String) (index : Nat) (j : Nat) : List Ev :=
  [Ev.write (progressUpd nm index j), Ev.runCall nm index j]

/-- The events of `k` consecutive attempts numbered `a+1 .. a+k`: before each
attempt the progress fields are written, then `run()` is invoked. -/
def attemptsTrace (nm : String) (index : Nat) : Nat → Nat → List Ev
  | _, 0 => []
  | a, k + 1 => attemptEvs nm index (a + 1) ++ attemptsTrace nm index (a + 1) k

/-- Retry loop, all-attempts-fail case: entering at attempt `a` with
`rem = m - a > 0` iterations left, if every remaining attempt raises, the
loop returns FAILED with `attempts = m` and the last attempt's error, and its
trace is exactly the per-attempt events of attempts `a+1 .. m`. -/
theorem retryLoopAux_fail_all (step : Step) (index m t : Nat) :
    ∀ rem a doc,
      a + rem = m → 0 < rem →
      (∀ j, a < j → j ≤ m → ∃ e1, step.run j = .error e1) →
      ∀ e, step.run m = .error e →
      (SagaOrchestrator.retryLoopAux step index m t a rem doc).1 =
        { step := step.name, status := "FAILED", index := index,
          attempts := some m, error := some e } ∧
      (SagaOrchestrator.retryLoopAux step index m t a rem doc).2.2 =
        attemptsTrace step.name index a rem := by
  intro rem
  induction rem with
  | zero =>
      intro a doc hsum hpos
      omega
  | succ n ih =>
      intro a doc hsum _ hfail e he
      obtain ⟨e1, he1⟩ := hfail (a + 1) (by omega) (by omega)
      rw [SagaOrchestrator.retryLoopAux]
      by_cases hm : a = m - 1
      · have hn : n = 0 := by omega
        subst hn
        have ham : a + 1 = m := by omega
        rw [ham] at he1
        rw [he] at he1
        simp only [he, ham, if_pos hm]
        constructor
        · simp [ham, ← he1]
        · simp [attemptsTrace, attemptEvs, ham]
      · have hn : 0 < n := by omega
        obtain ⟨ih1, ih2⟩ := ih (a + 1)
          (writeState doc (progressUpd step.name index (a + 1)) t)
          (by omega) hn (fun j hj1 hj2 => hfail j (by omega) hj2) e he
        simp only [he1, if_neg hm]
        constructor
        · exact ih1
        · rw [ih2]
          simp [attemptsTrace, attemptEvs]

/-- Retry loop, eventual-success case: entering at attempt `a` with
`rem = m - a` iterations left, if attempts `a+1 .. n-1` raise and attempt `n`
(with `a < n ≤ m`) succeeds with payload `p`, the loop returns SUCCESS with
`attempts = n`, and its trace is the per-attempt events of attempts
`a+1 .. n` followed by the `last_success_step` write. -/
theorem retryLoopAux_success_at (step : Step) (index m t : Nat) (p : String) :
    ∀ rem a doc n,
      a + rem = m → a < n → n ≤ m →
      (∀ j, a < j → j < n → ∃ e1, step.run j = .error e1) →
      step.run n = .ok p →
      (SagaOrchestrator.retryLoopAux step index m t a rem doc).1 =
        { step := step.name, status := "SUCCESS", index := index,
          attempts := some n, result := some p } ∧
      (SagaOrchestrator.retryLoopAux step index m t a rem doc).2.2 =
        attemptsTrace step.name index a (n - a - 1) ++
          [Ev.write (progressUpd step.name index n),
           Ev.runCall step.name index n,
           Ev.write { last_success_step := some (index : Int) }] := by
  intro rem
  induction rem with
  | zero =>
      intro a doc n hsum hlt hle
      omega
  | succ k ih =>
      intro a doc n hsum hlt hle hfail hok
      rw [SagaOrchestrator.retryLoopAux]
      by_cases hn : n = a + 1
      · subst hn
        have h0 : a + 1 - a - 1 = 0 := by omega
        simp only [hok, h0]
        constructor
        · trivial
        · simp [attemptsTrace]
      · have hlt1 : a + 1 < n := by omega
        obtain ⟨e1, he1⟩ := hfail (a + 1) (by omega) hlt1
        have hm : a ≠ m - 1 := by omega
        simp only [he1, if_neg hm]
        obtain ⟨ih1, ih2⟩ := ih (a + 1)
          (writeState doc (progressUpd step.name index (a + 1)) t) n
          (by omega) hlt1 hle (fun j hj1 hj2 => hfail j (by omega) hj2) hok
        constructor
        · exact ih1
        · rw [ih2]
          have hr : n - a - 1 = (n - (a + 1) - 1) + 1 := by omega
          rw [hr]
          simp [attemptsTrace, attemptEvs]

/-- C6: for a step executed by the retry loop with max_retries = m: if run()
raises on attempts 1..n-1 and succeeds on attempt n (n ≤ m), the StepResult
is SUCCESS with attempts = n; if run() raises on all m attempts, the
StepResult is FAILED with attempts = m and error equal to the last attempt's
message; and in both cases the trace is exactly one persisted write of
current_step / current_step_index / current_step_attempt before every
attempt's run() invocation (the shape of `attemptsTrace`). -/
theorem claim6_retry_and_attempts (step : Step) (index m t : Nat)
    (doc : Option Doc) (n : Nat) (p e : String) :
    ((0 < n → n ≤ m →
      (∀ j, 0 < j → j < n → ∃ e1, step.run j = .error e1) →
      step.run n = .ok p →
      (SagaOrchestrator.execute_step_with_retry step index m t doc).1 =
        { step := step.name, status := "SUCCESS", index := index,
          attempts := some n, result := some p } ∧
      (SagaOrchestrator.execute_step_with_retry step index m t doc).2.2 =
        attemptsTrace step.name index 0 (n - 1) ++
          [Ev.write (progressUpd step.name index n),
           Ev.runCall step.name index n,
           Ev.write { last_success_step := some (index : Int) }]) ∧
     (0 < m →
      (∀ j, 0 < j → j ≤ m → ∃ e1, step.run j = .error e1) →
      step.run m = .error e →
      (SagaOrchestrator.execute_step_with_retry step index m t doc).1 =
        { step := step.name, status := "FAILED", index := index,
          attempts := some m, error := some e } ∧
      (SagaOrchestrator.execute_step_with_retry step index m t doc).2.2 =
        attemptsTrace step.name index 0 m)) := by
  constructor
  · intro h1 h2 h3 h4
    have h := retryLoopAux_success_at step index m t p m 0 doc n
      (by omega) h1 h2 h3 h4
    simpa [SagaOrchestrator.execute_step_with_retry] using h
  · intro h1 h2 h3
    have h := retryLoopAux_fail_all step index m t m 0 doc
      (by omega) h1 h2 e h3
    simpa [SagaOrchestrator.execute_step_with_retry] using h

/-- A step that raises on attempts 1 and 2 and succeeds on attempt 3. -/
def sFlaky : Step :=
  { name := "F"
    run := fun j => if j < 3 then .error "flaky_error" else .ok "F_result"
    compensate := .ok () }

theorem claim6_witness :
    ((SagaOrchestrator.execute_step_with_retry sFlaky 0 3 0 none).1 =
        { step := "F", status := "SUCCESS", index := 0, attempts := some 3,
          result := some "F_result" } ∧
      (SagaOrchestrator.execute_step_with_retry sFlaky 0 3 0 none).2.2 =
        attemptsTrace "F" 0 0 (3 - 1) ++
          [Ev.write (progressUpd "F" 0 3), Ev.runCall "F" 0 3,
           Ev.write { last_success_step := some (0 : Int) }]) ∧
    ((SagaOrchestrator.execute_step_with_retry sC 1 2 0 none).1 =
        { step := "C", status := "FAILED", index := 1, attempts := some 2,
          error := some "C_error" } ∧
      (SagaOrchestrator.execute_step_with_retry sC 1 2 0 none).2.2 =
        attemptsTrace "C" 1 0 2) :=
  ⟨(claim6_retry_and_attempts sFlaky 0 3 0 none 3 "F_result" "x").1
      (by decide) (by decide)
      (fun j _hj1 hj2 => ⟨"flaky_error", by simp [sFlaky, hj2]⟩)
      rfl,
   (claim6_retry_and_attempts sC 1 2 0 none 1 "q" "C_error").2
      (by decide)
      (fun j _hj1 _hj2 => ⟨"C_error", by simp [sC, mkStep]⟩)
      rfl⟩

theorem readLss_eq (doc : Option Doc) : readLss doc = persistedLss doc := by
  cases doc <;>
    simp [readLss, persistedLss, FirestoreRepo.get_state,
      FirestoreRepo.get_default_state]

theorem persistedLss_initUpd (doc : Option Doc) (retry : Bool) (t : Nat) :
    persistedLss (writeState doc (initUpd doc retry t) t) = persistedLss doc := by
  rw [persistedLss_writeState]
  rfl

/-- Endpoint bounds: a step loop never moves the persisted
`last_success_step` below the value read at the start of the run, and never
above (number of steps) - 1. -/
theorem stepLoopAux_lss_endpoint (all : List Step) (m : Nat) (lss : Int) (t : Nat) :
    ∀ suffix index doc acc,
      suffix = all.drop index →
      lss ≤ persistedLss doc →
      persistedLss doc ≤ (all.length : Int) - 1 →
      lss ≤ persistedLss
          (SagaOrchestrator.stepLoopAux all m lss t suffix index doc acc).2.1 ∧
      persistedLss
          (SagaOrchestrator.stepLoopAux all m lss t suffix index doc acc).2.1 ≤
        (all.length : Int) - 1 := by
  intro suffix
  induction suffix with
  | nil =>
      intro index doc acc _ h1 h2
      rw [SagaOrchestrator.stepLoopAux]
      simp only [persistedLss_writeState]
      exact ⟨le_trans h1 h2, le_refl _⟩
  | cons step rest ih =>
      intro index doc acc hdrop h1 h2
      rw [SagaOrchestrator.stepLoopAux]
      by_cases hskip : (index : Int) ≤ lss
      · simp only [if_pos hskip]
        exact ih (index + 1) doc _
          (drop_cons_drop all index step rest hdrop.symm).symm h1 h2
      · simp only [if_neg hskip]
        by_cases hfail :
            (SagaOrchestrator.execute_step_with_retry step index m t doc).1.status = "FAILED"
        · simp only [if_pos hfail]
          have hS : persistedLss
              (SagaOrchestrator.execute_step_with_retry step index m t doc).2.1 =
              persistedLss doc := by
            rw [execute_step_with_retry_persistedLss, hfail]
            simp
          simp only [persistedLss_writeState]
          simp only [Option.getD_none]
          rw [hS]
          exact ⟨h1, h2⟩
        · simp only [if_neg hfail]
          have hstat : (SagaOrchestrator.execute_step_with_retry step index m t doc).1.status =
              "SUCCESS" :=
            (execute_step_with_retry_status step index m t doc).resolve_right hfail
          have hS : persistedLss
              (SagaOrchestrator.execute_step_with_retry step index m t doc).2.1 =
              (index : Int) := by
            rw [execute_step_with_retry_persistedLss, hstat]
            simp
          have hix := drop_cons_lt all index step rest hdrop.symm
          exact ih (index + 1) _ _
            (drop_cons_drop all index step rest hdrop.symm).symm
            (by rw [hS]; exact le_of_lt (lt_of_not_le hskip))
            (by rw [hS]; omega)

/-- Within one run, the sequence of values written to `last_success_step`
never goes below the previous value: starting from any lower bound `L`
compatible with the run's position, the write sequence is non-decreasing. -/
theorem stepLoopAux_lssWrites_chain (all : List Step) (m : Nat) (lss : Int) (t : Nat) :
    ∀ suffix index doc acc (L : Int),
      suffix = all.drop index →
      index ≤ all.length →
      L ≤ max lss ((index : Int) - 1) →
      lss ≤ (all.length : Int) - 1 →
      List.Chain' (· ≤ ·)
        (L :: lssWrites
          (SagaOrchestrator.stepLoopAux all m lss t suffix index doc acc).2.2) := by
  intro suffix
  induction suffix with
  | nil =>
      intro index doc acc L hdrop hle hL hlss
      rw [SagaOrchestrator.stepLoopAux]
      have hn : index = all.length :=
        le_antisymm hle (drop_nil_le all index hdrop.symm)
      subst hn
      simp only [lssWrites, List.filterMap_cons, Ev.lssOf]
      simp only [List.filterMap_nil]
      rw [List.chain'_cons]
      constructor
      · refine le_trans hL (max_le hlss ?_)
        omega
      · exact List.chain'_singleton _
  | cons step rest ih =>
      intro index doc acc L hdrop hle hL hlss
      rw [SagaOrchestrator.stepLoopAux]
      have hix := drop_cons_lt all index step rest hdrop.symm
      by_cases hskip : (index : Int) ≤ lss
      · simp only [if_pos hskip]
        refine ih (index + 1) doc _ L
          (drop_cons_drop all index step rest hdrop.symm).symm (by omega) ?_ hlss
        refine le_trans hL (max_le_max (le_refl _) ?_)
        push_cast
        omega
      · simp only [if_neg hskip]
        by_cases hfail :
            (SagaOrchestrator.execute_step_with_retry step index m t doc).1.status = "FAILED"
        · simp only [if_pos hfail]
          simp only [lssWrites_append]
          rw [execute_step_with_retry_lssWrites, hfail]
          rw [run_compensations_lssWrites]
          simp [lssWrites, Ev.lssOf, List.chain'_singleton]
        · simp only [if_neg hfail]
          have hstat : (SagaOrchestrator.execute_step_with_retry step index m t doc).1.status =
              "SUCCESS" :=
            (execute_step_with_retry_status step index m t doc).resolve_right hfail
          simp only [lssWrites_append]
          rw [execute_step_with_retry_lssWrites, hstat]
          rw [if_pos rfl, List.singleton_append, List.chain'_cons]
          constructor
          · refine le_trans hL (max_le ?_ ?_)
            · exact le_of_lt (lt_of_not_le hskip)
            · omega
          · refine ih (index + 1) _ _ (index : Int)
              (drop_cons_drop all index step rest hdrop.symm).symm (by omega) ?_ hlss
            have hc : ((index + 1 : Nat) : Int) - 1 = (index : Int) := by
              push_cast
              ring
            rw [hc]
            exact le_max_right _ _

theorem execute_lss_endpoint (steps : List Step) (m : Nat) (doc : Option Doc)
    (retry : Bool) (t : Nat)
    (h : persistedLss doc ≤ (steps.length : Int) - 1) :
    persistedLss doc ≤
      persistedLss (SagaOrchestrator.execute steps m doc retry t).2.1 ∧
    persistedLss (SagaOrchestrator.execute steps m doc retry t).2.1 ≤
      (steps.length : Int) - 1 := by
  by_cases hip : (FirestoreRepo.get_state doc true).status = some "IN_PROGRESS" ∧
      retry = false
  · rw [SagaOrchestrator.execute]
    simp only [if_pos hip]
    exact ⟨le_refl _, h⟩
  · rw [execute_eq_of_not_in_progress steps m doc retry t hip]
    have h0 := persistedLss_initUpd doc retry t
    have hend := stepLoopAux_lss_endpoint steps m (readLss doc) t steps 0
      (writeState doc (initUpd doc retry t) t) [] (by simp)
      (by rw [h0, readLss_eq]) (by rw [h0]; exact h)
    exact ⟨le_trans (le_of_eq (readLss_eq doc).symm) hend.1, hend.2⟩

theorem execute_lssWrites_chain (steps : List Step) (m : Nat) (doc : Option Doc)
    (retry : Bool) (t : Nat)
    (h : persistedLss doc ≤ (steps.length : Int) - 1) :
    List.Chain' (· ≤ ·) (persistedLss doc ::
      lssWrites (SagaOrchestrator.execute steps m doc retry t).2.2) := by
  by_cases hip : (FirestoreRepo.get_state doc true).status = some "IN_PROGRESS" ∧
      retry = false
  · rw [SagaOrchestrator.execute]
    simp only [if_pos hip]
    exact List.chain'_singleton _
  · rw [execute_eq_of_not_in_progress steps m doc retry t hip]
    have hdrop : lssWrites (Ev.write (initUpd doc retry t) ::
        (SagaOrchestrator.stepLoopAux steps m (readLss doc) t steps 0
          (writeState doc (initUpd doc retry t) t) []).2.2) =
        lssWrites (SagaOrchestrator.stepLoopAux steps m (readLss doc) t steps 0
          (writeState doc (initUpd doc retry t) t) []).2.2 := rfl
    rw [hdrop]
    refine stepLoopAux_lssWrites_chain steps m (readLss doc) t steps 0 _ []
      (persistedLss doc) (by simp) (by simp) ?_ ?_
    · rw [readLss_eq]
      exact le_max_left _ _
    · rw [readLss_eq]
      exact h

/-- C4: starting from any document whose persisted last_success_step is
within range (in particular, the default state), across any sequence of
execute calls (retry true or false) the persisted last_success_step is
monotonically non-decreasing, and within each run the successive values
written to last_success_step only advance upward from the value persisted at
the start of that run — until reset replaces the document. -/
theorem claim4_lss_monotone (steps : List Step) (m : Nat) (doc0 : Option Doc)
    (calls : List (Bool × Nat))
    (h : persistedLss doc0 ≤ (steps.length : Int) - 1) :
    List.Chain' (· ≤ ·) (List.map persistedLss
      (List.scanl (fun d c => (SagaOrchestrator.execute steps m d c.1 c.2).2.1)
        doc0 calls)) ∧
    ∀ d ∈ List.scanl (fun d c => (SagaOrchestrator.execute steps m d c.1 c.2).2.1)
        doc0 calls,
      ∀ retry t, List.Chain' (· ≤ ·)
        (persistedLss d ::
          lssWrites (SagaOrchestrator.execute steps m d retry t).2.2) := by
  induction calls generalizing doc0 with
  | nil =>
      constructor
      · simp [List.scanl]
      · intro d hd retry t
        simp [List.scanl] at hd
        subst hd
        exact execute_lssWrites_chain steps m d retry t h
  | cons c cs ih =>
      obtain ⟨he1, he2⟩ := execute_lss_endpoint steps m doc0 c.1 c.2 h
      obtain ⟨ih1, ih2⟩ :=
        ih (SagaOrchestrator.execute steps m doc0 c.1 c.2).2.1 he2
      constructor
      · rw [List.scanl_cons, List.singleton_append, List.map_cons]
        rw [List.chain'_cons']
        refine ⟨?_, ih1⟩
        intro y hy
        have hhead : (List.map persistedLss
            (List.scanl (fun d c => (SagaOrchestrator.execute steps m d c.1 c.2).2.1)
              (SagaOrchestrator.execute steps m doc0 c.1 c.2).2.1 cs)).head? =
            some (persistedLss (SagaOrchestrator.execute steps m doc0 c.1 c.2).2.1) := by
          cases cs <;> simp [List.scanl]
        rw [hhead] at hy
        simp at hy
        rw [← hy]
        exact he1
      · intro d hd retry t
        rw [List.scanl_cons, List.singleton_append] at hd
        rcases List.mem_cons.mp hd with rfl | hd2
        · exact execute_lssWrites_chain steps m d retry t h
        · exact ih2 d hd2 retry t

theorem claim4_witness :
    persistedLss none ≤ (([sA, sC].length : Int) - 1) ∧
    (List.Chain' (· ≤ ·) (List.map persistedLss
      (List.scanl (fun d c => (SagaOrchestrator.execute [sA, sC] 1 d c.1 c.2).2.1)
        none [(false, 0), (true, 1)])) ∧
     ∀ d ∈ List.scanl (fun d c => (SagaOrchestrator.execute [sA, sC] 1 d c.1 c.2).2.1)
        none [(false, 0), (true, 1)],
       ∀ retry t, List.Chain' (· ≤ ·)
         (persistedLss d ::
           lssWrites (SagaOrchestrator.execute [sA, sC] 1 d retry t).2.2)) :=
  ⟨by decide,
   claim4_lss_monotone [sA, sC] 1 none [(false, 0), (true, 1)] (by decide)⟩
